import Mathlib

/-!
Verification of the `node_tree` tree-store (src/node_tree.py) against its
natural-language specification.

Shallow embedding conventions:
- A Python dict value occurring in a record is `Value`: a string, an integer,
  or `None` (Python `==` on these compares constructor and payload, which is
  exactly structural equality of `Value`).
- A record (a Python dict) is an association list `Item` of field name to
  `Value`; `itemFind` is `dict[k]`-style lookup returning `Option`
  (`none` = the `KeyError` case), `itemGet` is `dict.get(k)` which defaults a
  missing field to Python `None`.
- `Node` objects are mutable and aliased in Python (the map and the children
  lists hold references to the same objects).  Since after the first pass the
  map holds exactly one node per distinct id, a node is identified by its map
  key; children lists hold child KEYS, and `node.item` is recovered by key
  lookup (`nodeItem`).
- The insertion-ordered Python dict `nodes_map` is an association list with
  unique keys; `dictInsert` replaces in place on an existing key (keeping the
  key's position) and appends a fresh key at the end, exactly the Python 3.7+
  dict semantics.
- Raising is modelled with `Except Err`; a possibly non-terminating loop or
  recursion (the `while` loop of `get_all_parents`, the recursion of
  `print_tree`) is fuel-indexed, `none` meaning "still running after that
  much fuel".
-/

/-- A Python scalar value as used by the records: `str`, `int` or `None`. -/
inductive Value where
  | vStr (s : String)
  | vInt (n : Int)
  | vNone
deriving DecidableEq, Repr

/-- A record: a Python dict from field names to values. -/
abbrev Item := List (String × Value)

/-- `item[k]` without the raise: `some` the first binding of `k`, else `none`. -/
def itemFind : Item → String → Option Value
  | [], _ => none
  | (k, v) :: rest, key => if k = key then some v else itemFind rest key

/-- `item.get(k)`: a missing field reads as Python `None`. -/
def itemGet (it : Item) (key : String) : Value :=
  (itemFind it key).getD Value.vNone

/-- Lookup in an association list keyed by `Value` (dict lookup `.get`). -/
def alookup {α : Type} : List (Value × α) → Value → Option α
  | [], _ => none
  | (k, v) :: rest, key => if k = key then some v else alookup rest key

/-- Python 3.7+ dict insert: replace in place on an existing key (keeping its
position in iteration order), append a new key at the end. -/
def dictInsert (m : List (Value × Item)) (k : Value) (v : Item) :
    List (Value × Item) :=
  match m with
  | [] => [(k, v)]
  | (k', v') :: rest =>
    if k' = k then (k, v) :: rest else (k', v') :: dictInsert rest k v

/-- The exceptions the source can raise: `KeyError` from `item['id']` or
`item['parent']`, `AttributeError` from dereferencing `None`. -/
inductive Err where
  | keyError
  | attrError
deriving DecidableEq, Repr

/-- First pass of `TreeStore.build_tree`:
`for item in items_: self.nodes_map[item['id']] = Node(item)`.
`item['id']` raises `KeyError` when the field is missing. -/
def pass1 (m : List (Value × Item)) : List Item → Except Err (List (Value × Item))
  | [] => Except.ok m
  | it :: rest =>
    match itemFind it "id" with
    | none => Except.error Err.keyError
    | some k => pass1 (dictInsert m k it) rest

/-- Append child key `ck` to the children list stored at key `pk`
(`parent_node.children.append(node)`); a no-op when `pk` has no entry. -/
def appendChild : List (Value × List Value) → Value → Value → List (Value × List Value)
  | [], _, _ => []
  | (k, cs) :: rest, pk, ck =>
    if k = pk then (k, cs ++ [ck]) :: rest else (k, cs) :: appendChild rest pk ck

/-- Second pass of `TreeStore.build_tree`, iterating the finished map in its
insertion order: a node whose `item.get('parent') == 'root'` becomes the root
(last one wins); otherwise the node is appended to the children of the node at
key `item.get('parent')` when that key is present, and is silently skipped
(an orphan) when it is not. -/
def pass2 (m : List (Value × Item)) :
    List (Value × List Value) → Option Value → List (Value × Item) →
    List (Value × List Value) × Option Value
  | ch, rt, [] => (ch, rt)
  | ch, rt, (k, it) :: rest =>
    if itemGet it "parent" = Value.vStr "root" then
      pass2 m ch (some k) rest
    else
      match alookup m (itemGet it "parent") with
      | some _ => pass2 m (appendChild ch (itemGet it "parent") k) rt rest
      | none => pass2 m ch rt rest

/-- The tree store: the insertion-ordered map `nodes_map` (key to node item),
each node's children (as keys into `nodes_map`), and the root node's key. -/
structure TreeStore where
  nodes_map : List (Value × Item)
  children : List (Value × List Value)
  root_node : Option Value
deriving DecidableEq, Repr

/-- The state-building part of `TreeStore.__init__` / `build_tree`: both
passes, without the trailing `print_tree` call. -/
def mkStore (items_ : List Item) : Except Err TreeStore :=
  match pass1 [] items_ with
  | Except.error e => Except.error e
  | Except.ok m =>
    let p := pass2 m (m.map fun e => (e.1, ([] : List Value))) none m
    Except.ok ⟨m, p.1, p.2⟩

/-- `node.children`, as keys. -/
def childKeys (s : TreeStore) (k : Value) : List Value :=
  (alookup s.children k).getD []

/-- `node.item` for the node at key `k` (children keys always resolve). -/
def nodeItem (s : TreeStore) (k : Value) : Item :=
  (alookup s.nodes_map k).getD []

/-- The recursion of `TreeStore.print_tree` below the root, fuel-indexed by
recursion depth: `true` when the recursion completes within the given depth. -/
def printGo (s : TreeStore) : Nat → Value → Bool
  | 0, _ => false
  | n + 1, k => (childKeys s k).all fun c => printGo s n c

/-- `TreeStore.print_tree()` as called from `build_tree`: returns immediately
on an empty map; otherwise dereferences `self.root_node`, which raises
`AttributeError` when it is `None`; otherwise recurses over the tree
(`none` = the recursion did not complete within `fuel`). -/
def printOk (s : TreeStore) (fuel : Nat) : Option (Except Err Unit) :=
  if s.nodes_map = [] then some (Except.ok ())
  else
    match s.root_node with
    | none => some (Except.error Err.attrError)
    | some rk => if printGo s fuel rk then some (Except.ok ()) else none

/-- Full construction `TreeStore(items_)`: build the state, then run the
coupled `print_tree` side effect, which can raise. -/
def constructStore (fuel : Nat) (items_ : List Item) :
    Option (Except Err TreeStore) :=
  match mkStore items_ with
  | Except.error e => some (Except.error e)
  | Except.ok s => (printOk s fuel).map fun r => r.map fun _ => s

/-- `TreeStore.get_all`: the items of the map, in insertion order. -/
def get_all (s : TreeStore) : List Item :=
  s.nodes_map.map Prod.snd

/-- `TreeStore.get_item`: the node's item when the id is a key of the map,
the empty dict `{}` otherwise. -/
def get_item (s : TreeStore) (id_ : Value) : Item :=
  match alookup s.nodes_map id_ with
  | some it => it
  | none => []

/-- `TreeStore.get_children`: the items of the node's children when the id is
a key of the map, `[]` otherwise. -/
def get_children (s : TreeStore) (id_ : Value) : List Item :=
  match alookup s.nodes_map id_ with
  | none => []
  | some _ => (childKeys s id_).map fun c => nodeItem s c

/-- The `while current_node:` loop of `TreeStore.get_all_parents`,
fuel-indexed: `none` = still looping after `fuel` iterations;
`item['parent']` raises `KeyError` when the field is missing. -/
def gapGo (s : TreeStore) : Nat → Option Item → Option (Except Err (List Item))
  | _, none => some (Except.ok [])
  | 0, some _ => none
  | n + 1, some it =>
    match itemFind it "parent" with
    | none => some (Except.error Err.keyError)
    | some p =>
      match gapGo s n (alookup s.nodes_map p) with
      | none => none
      | some (Except.error e) => some (Except.error e)
      | some (Except.ok l) => some (Except.ok (it :: l))

/-- `TreeStore.get_all_parents(id_)`, fuel-indexed. -/
def get_all_parents (fuel : Nat) (s : TreeStore) (id_ : Value) :
    Option (Except Err (List Item)) :=
  gapGo s fuel (alookup s.nodes_map id_)

/-- The ancestor walk from `id_` never finishes, whatever the fuel: the
Python loop neither returns nor raises. -/
def gapNeverFinishes (s : TreeStore) (id_ : Value) : Prop :=
  ∀ n, get_all_parents n s id_ = none

/- ### Concrete inputs used by counterexamples, failing inputs and witnesses -/

/-- A nonempty input in which no record has `parent == 'root'`. -/
def c1Items : List Item := [[("id", Value.vInt 1), ("parent", Value.vInt 2)]]

/-- An input with a root plus a two-cycle of parent references (1 and 2 name
each other as parent). -/
def cycItems : List Item :=
  [[("id", Value.vInt 0), ("parent", Value.vStr "root")],
   [("id", Value.vInt 1), ("parent", Value.vInt 2)],
   [("id", Value.vInt 2), ("parent", Value.vInt 1)]]

/-- The store built from `cycItems` (construction succeeds). -/
def cycStore : TreeStore :=
  match mkStore cycItems with
  | Except.ok s => s
  | Except.error _ => ⟨[], [], none⟩

def cycItem1 : Item := [("id", Value.vInt 1), ("parent", Value.vInt 2)]

def cycItem2 : Item := [("id", Value.vInt 2), ("parent", Value.vInt 1)]

lemma cyc_lookup1 : alookup cycStore.nodes_map (Value.vInt 1) = some cycItem1 := rfl

lemma cyc_lookup2 : alookup cycStore.nodes_map (Value.vInt 2) = some cycItem2 := rfl

/-- On the two-cycle, the loop state alternates between nodes 1 and 2 and
never reaches a terminating or raising configuration. -/
lemma cyc_gapGo_none (n : Nat) :
    gapGo cycStore n (some cycItem1) = none ∧
    gapGo cycStore n (some cycItem2) = none := by
  induction n with
  | zero => exact ⟨rfl, rfl⟩
  | succ n ih =>
    refine ⟨?_, ?_⟩
    · show gapGo cycStore (n + 1) (some cycItem1) = none
      have h1 : itemFind cycItem1 "parent" = some (Value.vInt 2) := rfl
      simp only [gapGo, h1, cyc_lookup2, ih.2]
    · show gapGo cycStore (n + 1) (some cycItem2) = none
      have h2 : itemFind cycItem2 "parent" = some (Value.vInt 1) := rfl
      simp only [gapGo, h2, cyc_lookup1, ih.1]

/-- C1: the claim says construction completes without raising even when no
record has `parent == 'root'`.  On the concrete nonempty input `c1Items`
(one record, parent `2`, no root) the coupled `print_tree` call dereferences
the unset `root_node` and construction raises `AttributeError`, for every
amount of fuel (the failure happens before any recursion). -/
theorem c1_missing_root_raises (fuel : Nat) :
    constructStore fuel c1Items = some (Except.error Err.attrError) := rfl

/-- C2: the claim says `get_all_parents` terminates even on a parent cycle.
The store built from `cycItems` is a genuinely constructed store
(construction succeeds, shown by the first conjunct), yet on id `1`, whose
parent chain is the cycle 1 -> 2 -> 1, the walk never finishes: for every
fuel the loop is still running. -/
theorem c2_cycle_loops_forever :
    constructStore 1 cycItems = some (Except.ok cycStore) ∧
    gapNeverFinishes cycStore (Value.vInt 1) := by
  refine ⟨rfl, fun n => ?_⟩
  show gapGo cycStore n (alookup cycStore.nodes_map (Value.vInt 1)) = none
  rw [cyc_lookup1]
  exact (cyc_gapGo_none n).1

/- ### C3: which malformed records make construction raise -/

lemma pass1_error_missing :
    ∀ (items_ : List Item) (m : List (Value × Item)) (e : Err),
      pass1 m items_ = Except.error e → ∃ r ∈ items_, itemFind r "id" = none := by
  intro items_
  induction items_ with
  | nil => intro m e h; simp [pass1] at h
  | cons it rest ih =>
    intro m e h
    cases hf : itemFind it "id" with
    | none => exact ⟨it, List.mem_cons_self it rest, hf⟩
    | some k =>
      simp only [pass1, hf] at h
      obtain ⟨r, hr, hmiss⟩ := ih _ _ h
      exact ⟨r, List.mem_cons_of_mem _ hr, hmiss⟩

lemma pass1_error_of_missing (r : Item) (hmiss : itemFind r "id" = none) :
    ∀ (items_ : List Item) (m : List (Value × Item)), r ∈ items_ →
      pass1 m items_ = Except.error Err.keyError := by
  intro items_
  induction items_ with
  | nil => intro m h; cases h
  | cons it rest ih =>
    intro m hr
    rcases List.mem_cons.mp hr with heq | hr'
    · subst heq; simp [pass1, hmiss]
    · cases hf : itemFind it "id" with
      | none => simp [pass1, hf]
      | some k =>
        simp only [pass1, hf]
        exact ih _ hr'

lemma printOk_ne_some_keyError (s : TreeStore) (fuel : Nat) :
    printOk s fuel ≠ some (Except.error Err.keyError) := by
  unfold printOk
  split
  · simp
  · split
    · simp
    · split <;> simp

lemma constructStore_mk_ok {items_ : List Item} {s : TreeStore}
    (hs : mkStore items_ = Except.ok s) (fuel : Nat) :
    constructStore fuel items_ = (printOk s fuel).map fun r => r.map fun _ => s := by
  unfold constructStore
  rw [hs]

lemma constructStore_mk_ok_ne_keyError {items_ : List Item} {s : TreeStore}
    (hs : mkStore items_ = Except.ok s) (fuel : Nat) :
    constructStore fuel items_ ≠ some (Except.error Err.keyError) := by
  rw [constructStore_mk_ok hs fuel]
  cases hp : printOk s fuel with
  | none => simp
  | some r =>
    cases r with
    | error e =>
      simp only [Option.map_some', Except.map, Option.some.injEq, Except.error.injEq]
      intro he
      have he2 : e = Err.keyError := by simpa using he
      rw [he2] at hp
      exact printOk_ne_some_keyError s fuel hp
    | ok u => simp [Except.map]

/-- A well-formed record next to one lacking the `parent` field. -/
def c3Items : List Item :=
  [[("id", Value.vInt 1), ("parent", Value.vStr "root")], [("id", Value.vInt 2)]]

/-- The store built from `c3Items` (construction succeeds). -/
def c3Store : TreeStore :=
  match mkStore c3Items with
  | Except.ok s => s
  | Except.error _ => ⟨[], [], none⟩

/-- C3 counterexample: the claim says construction raises when some record
lacks the `parent` field.  On `c3Items`, whose second record has an `id` but
no `parent` field (first conjunct), construction completes normally and
returns a store (second conjunct): `build_tree` reads `parent` with the
defaulting `.get` and simply leaves the record an orphan. -/
theorem c3_counterexample :
    itemFind [("id", Value.vInt 2)] "parent" = none ∧
    constructStore 1 c3Items = some (Except.ok c3Store) :=
  ⟨rfl, rfl⟩

/-- C3 amended: construction raises (a `KeyError`) if and only if some input
record lacks the `id` field; a record lacking only `parent` is accepted and
indexed.  When construction raises, no store is produced (the `Except.error`
result carries no store, matching `__init__` failing as a whole). -/
theorem c3_amended_raise_iff (items_ : List Item) (fuel : Nat) :
    constructStore fuel items_ = some (Except.error Err.keyError) ↔
      ∃ r ∈ items_, itemFind r "id" = none := by
  constructor
  · intro h
    cases hpass : pass1 [] items_ with
    | error e => exact pass1_error_missing items_ [] e hpass
    | ok m =>
      have hmk : ∃ s, mkStore items_ = Except.ok s := by
        unfold mkStore; rw [hpass]; exact ⟨_, rfl⟩
      obtain ⟨s, hs⟩ := hmk
      exact absurd h (constructStore_mk_ok_ne_keyError hs fuel)
  · intro ⟨r, hr, hmiss⟩
    have hp1 : pass1 [] items_ = Except.error Err.keyError :=
      pass1_error_of_missing r hmiss items_ [] hr
    have hmk : mkStore items_ = Except.error Err.keyError := by
      unfold mkStore; rw [hp1]
    unfold constructStore
    rw [hmk]

/- ### C4: get_all_parents against the spec-described ancestor chain -/

/-- Written from the spec's words for `getAllParents` (refinement target, not
from the source): `l` is "a sequence starting with the record for `id`, each
subsequent element being the record whose id equals the previous element's
`parent` field, ending at the record whose `parent == 'root'`". -/
def specAncestorChain (s : TreeStore) : Value → List Item → Bool
  | _, [] => false
  | i, r :: rs =>
    match alookup s.nodes_map i, itemFind r "parent" with
    | some r', some p =>
      decide (r' = r) &&
        (if rs.isEmpty then decide (p = Value.vStr "root") else specAncestorChain s p rs)
    | _, _ => false

lemma gapGo_spec_chain (s : TreeStore)
    (hroot : alookup s.nodes_map (Value.vStr "root") = none) :
    ∀ (l : List Item) (i : Value), specAncestorChain s i l = true →
      ∀ n, l.length ≤ n → gapGo s n (alookup s.nodes_map i) = some (Except.ok l) := by
  intro l
  induction l with
  | nil => intro i h; simp [specAncestorChain] at h
  | cons r rs ih =>
    intro i h n hn
    simp only [specAncestorChain] at h
    cases hl : alookup s.nodes_map i with
    | none => rw [hl] at h; simp at h
    | some r' =>
      rw [hl] at h
      cases hp : itemFind r "parent" with
      | none => rw [hp] at h; simp at h
      | some p =>
        rw [hp] at h
        have h2 : (decide (r' = r) &&
            (if rs.isEmpty then decide (p = Value.vStr "root")
             else specAncestorChain s p rs)) = true := h
        rw [Bool.and_eq_true, decide_eq_true_eq] at h2
        obtain ⟨hr', hrest⟩ := h2
        subst hr'
        cases n with
        | zero => simp at hn
        | succ m =>
          have hm : rs.length ≤ m := by simpa using hn
          cases rs with
          | nil =>
            simp only [List.isEmpty_nil, if_true, decide_eq_true_eq] at hrest
            subst hrest
            simp [gapGo, hp, hroot]
          | cons r2 rs' =>
            simp only [List.isEmpty_cons, if_false] at hrest
            have hrec := ih p hrest m hm
            simp [gapGo, hp, hrec]

/-- C4: `get_all_parents` behaves as the spec describes, for every store.
First conjunct: an id absent from the index yields the empty sequence (for
any fuel).  Second conjunct: an orphan (its record's `parent` value matches
no index key) yields just its own record.  Third conjunct: whenever `l` is
the spec-described ancestor chain for `id` (starting at the record for `id`,
following `parent` links, ending at the record whose `parent` is the sentinel
`'root'`, which is not an index key), the walk returns exactly `l` once the
fuel covers `l.length`; the chain's length is its depth plus one by
construction of the chain. -/
theorem c4_get_all_parents_follows_spec (s : TreeStore) :
    (∀ id_, alookup s.nodes_map id_ = none →
      ∀ n, get_all_parents n s id_ = some (Except.ok [])) ∧
    (∀ id_ r p, alookup s.nodes_map id_ = some r → itemFind r "parent" = some p →
      alookup s.nodes_map p = none →
      ∀ n, 1 ≤ n → get_all_parents n s id_ = some (Except.ok [r])) ∧
    (∀ id_ l, specAncestorChain s id_ l = true →
      alookup s.nodes_map (Value.vStr "root") = none →
      ∀ n, l.length ≤ n → get_all_parents n s id_ = some (Except.ok l)) := by
  refine ⟨?_, ?_, ?_⟩
  · intro id_ h n
    simp [get_all_parents, h, gapGo]
  · intro id_ r p hid hp hdangling n hn
    cases n with
    | zero => simp at hn
    | succ m => simp [get_all_parents, hid, gapGo, hp, hdangling]
  · intro id_ l hchain hroot n hn
    exact gapGo_spec_chain s hroot l id_ hchain n hn

/- ### The reference dataset of the source's self-test, used by witnesses -/

def item1 : Item := [("id", Value.vInt 1), ("parent", Value.vStr "root")]

def item2 : Item :=
  [("id", Value.vInt 2), ("parent", Value.vInt 1), ("type", Value.vStr "test")]

def item3 : Item :=
  [("id", Value.vInt 3), ("parent", Value.vInt 1), ("type", Value.vStr "test")]

def item4 : Item :=
  [("id", Value.vInt 4), ("parent", Value.vInt 2), ("type", Value.vStr "test")]

def item5 : Item :=
  [("id", Value.vInt 5), ("parent", Value.vInt 2), ("type", Value.vStr "test")]

def item6 : Item :=
  [("id", Value.vInt 6), ("parent", Value.vInt 2), ("type", Value.vStr "test")]

def item7 : Item :=
  [("id", Value.vInt 7), ("parent", Value.vInt 4), ("type", Value.vNone)]

def item8 : Item :=
  [("id", Value.vInt 8), ("parent", Value.vInt 4), ("type", Value.vNone)]

def items8 : List Item :=
  [item1, item2, item3, item4, item5, item6, item7, item8]

/-- The store built from the reference dataset. -/
def s8 : TreeStore :=
  match mkStore items8 with
  | Except.ok s => s
  | Except.error _ => ⟨[], [], none⟩

/-- A store with an orphan: record 2 names parent 9, which matches no id. -/
def orphItems : List Item :=
  [[("id", Value.vInt 1), ("parent", Value.vStr "root")],
   [("id", Value.vInt 2), ("parent", Value.vInt 9)]]

def orphStore : TreeStore :=
  match mkStore orphItems with
  | Except.ok s => s
  | Except.error _ => ⟨[], [], none⟩

/-- Witness for C4 at concrete inputs: an absent id on the reference store,
the orphan store's orphan, and the depth-3 chain of id 7 in the reference
store. -/
theorem c4_witness :
    get_all_parents 0 s8 (Value.vInt 99) = some (Except.ok []) ∧
    get_all_parents 1 orphStore (Value.vInt 2) =
      some (Except.ok [[("id", Value.vInt 2), ("parent", Value.vInt 9)]]) ∧
    get_all_parents 4 s8 (Value.vInt 7) =
      some (Except.ok [item7, item4, item2, item1]) :=
  ⟨(c4_get_all_parents_follows_spec s8).1 (Value.vInt 99) rfl 0,
   (c4_get_all_parents_follows_spec orphStore).2.1 (Value.vInt 2)
     [("id", Value.vInt 2), ("parent", Value.vInt 9)] (Value.vInt 9)
     rfl rfl rfl 1 (Nat.le_refl 1),
   (c4_get_all_parents_follows_spec s8).2.2 (Value.vInt 7)
     [item7, item4, item2, item1] (by decide) rfl 4 (by decide)⟩

/- ### Association-list and first-pass characterization lemmas -/

/-- The key a record is indexed under: its `id` field (`item['id']`). -/
def keyOf (r : Item) : Value := itemGet r "id"

/-- Left-biased choice on `Option`, used to state accumulator-generalized
lookup lemmas. -/
def orFallback {α : Type} : Option α → Option α → Option α
  | some a, _ => some a
  | none, b => b

lemma alookup_eq_none {α : Type} :
    ∀ (m : List (Value × α)) (k : Value), alookup m k = none ↔ k ∉ m.map Prod.fst := by
  intro m
  induction m with
  | nil => intro k; simp [alookup]
  | cons e rest ih =>
    intro k
    obtain ⟨k', v⟩ := e
    by_cases hk : k' = k
    · subst hk; simp [alookup]
    · simp only [alookup, if_neg hk, List.map_cons, List.mem_cons, ih]
      constructor
      · intro hnk h
        rcases h with h | h
        · exact hk h.symm
        · exact hnk h
      · intro hnot hmem
        exact hnot (Or.inr hmem)

lemma alookup_mem {α : Type} :
    ∀ (m : List (Value × α)) (k : Value) (v : α), alookup m k = some v → (k, v) ∈ m := by
  intro m
  induction m with
  | nil => intro k v h; simp [alookup] at h
  | cons e rest ih =>
    intro k v h
    obtain ⟨k', v'⟩ := e
    by_cases hk : k' = k
    · subst hk
      simp only [alookup, if_true, eq_self_iff_true, Option.some.injEq] at h
      subst h
      exact List.mem_cons_self _ _
    · simp only [alookup, if_neg hk] at h
      exact List.mem_cons_of_mem _ (ih k v h)

lemma mem_alookup {α : Type} :
    ∀ (m : List (Value × α)) (k : Value) (v : α),
      (m.map Prod.fst).Nodup → (k, v) ∈ m → alookup m k = some v := by
  intro m
  induction m with
  | nil => intro k v _ h; cases h
  | cons e rest ih =>
    intro k v hnd hmem
    obtain ⟨k', v'⟩ := e
    simp only [List.map_cons, List.nodup_cons] at hnd
    rcases List.mem_cons.mp hmem with heq | hmem'
    · obtain ⟨hk, hv⟩ := Prod.mk.injEq .. ▸ heq
      subst hk; subst hv
      simp [alookup]
    · by_cases hk : k' = k
      · subst hk
        exact absurd (List.mem_map_of_mem Prod.fst hmem') hnd.1
      · simp only [alookup, if_neg hk]
        exact ih k v hnd.2 hmem'

lemma mem_dictInsert :
    ∀ (m : List (Value × Item)) (k : Value) (v : Item) (e : Value × Item),
      e ∈ dictInsert m k v → e ∈ m ∨ e = (k, v) := by
  intro m
  induction m with
  | nil =>
    intro k v e h
    simp only [dictInsert] at h
    exact Or.inr (List.mem_singleton.mp h)
  | cons e0 rest ih =>
    intro k v e h
    obtain ⟨k', v'⟩ := e0
    by_cases hk : k' = k
    · subst hk
      simp only [dictInsert, if_pos rfl] at h
      rcases List.mem_cons.mp h with heq | hmem
      · exact Or.inr heq
      · exact Or.inl (List.mem_cons_of_mem _ hmem)
    · simp only [dictInsert, if_neg hk] at h
      rcases List.mem_cons.mp h with heq | hmem
      · exact Or.inl (heq ▸ List.mem_cons_self _ _)
      · rcases ih k v e hmem with h1 | h1
        · exact Or.inl (List.mem_cons_of_mem _ h1)
        · exact Or.inr h1

lemma dictInsert_keys :
    ∀ (m : List (Value × Item)) (k : Value) (v : Item),
      (dictInsert m k v).map Prod.fst =
        if k ∈ m.map Prod.fst then m.map Prod.fst else m.map Prod.fst ++ [k] := by
  intro m
  induction m with
  | nil => intro k v; simp [dictInsert]
  | cons e rest ih =>
    intro k v
    obtain ⟨k', v'⟩ := e
    by_cases hk : k' = k
    · subst hk
      simp [dictInsert]
    · have hk2 : ¬ k = k' := fun h => hk h.symm
      simp only [dictInsert, if_neg hk, List.map_cons, ih, List.mem_cons]
      by_cases hmem : k ∈ rest.map Prod.fst
      · simp [hmem, hk2]
      · simp [hmem, hk2]

lemma alookup_dictInsert :
    ∀ (m : List (Value × Item)) (k : Value) (v : Item) (k' : Value),
      alookup (dictInsert m k v) k' = if k = k' then some v else alookup m k' := by
  intro m
  induction m with
  | nil => intro k v k'; simp [dictInsert, alookup]
  | cons e rest ih =>
    intro k v k'
    obtain ⟨k0, v0⟩ := e
    by_cases h0 : k0 = k
    · subst h0
      by_cases hk : k0 = k'
      · subst hk; simp [dictInsert, alookup]
      · simp [dictInsert, alookup, hk]
    · by_cases hk : k0 = k'
      · subst hk
        have hne : ¬ k = k0 := fun h => h0 h.symm
        simp [dictInsert, alookup, h0, hne]
      · simp [dictInsert, alookup, h0, hk, ih]

lemma pass1_keys_nodup :
    ∀ (items_ : List Item) (m m' : List (Value × Item)),
      (m.map Prod.fst).Nodup → pass1 m items_ = Except.ok m' →
      (m'.map Prod.fst).Nodup := by
  intro items_
  induction items_ with
  | nil =>
    intro m m' hnd h
    simp only [pass1, Except.ok.injEq] at h
    exact h ▸ hnd
  | cons it rest ih =>
    intro m m' hnd h
    cases hf : itemFind it "id" with
    | none => rw [pass1, hf] at h; cases h
    | some k =>
      rw [pass1, hf] at h
      refine ih _ _ ?_ h
      rw [dictInsert_keys]
      by_cases hmem : k ∈ m.map Prod.fst
      · simpa [hmem] using hnd
      · simp only [hmem, if_false]
        simp [List.nodup_append, hnd, hmem]

lemma pass1_KC :
    ∀ (items_ : List Item) (m m' : List (Value × Item)),
      (∀ e ∈ m, itemFind e.2 "id" = some e.1) → pass1 m items_ = Except.ok m' →
      ∀ e ∈ m', itemFind e.2 "id" = some e.1 := by
  intro items_
  induction items_ with
  | nil =>
    intro m m' hkc h
    simp only [pass1, Except.ok.injEq] at h
    exact h ▸ hkc
  | cons it rest ih =>
    intro m m' hkc h
    cases hf : itemFind it "id" with
    | none => rw [pass1, hf] at h; cases h
    | some k =>
      rw [pass1, hf] at h
      refine ih _ _ ?_ h
      intro e he
      rcases mem_dictInsert m k it e he with hmem | heq
      · exact hkc e hmem
      · rw [heq]; exact hf

lemma keyOf_eq_of_find {r : Item} {k : Value} (h : itemFind r "id" = some k) :
    keyOf r = k := by
  simp [keyOf, itemGet, h]

lemma getLast?_cons_or {α : Type} :
    ∀ (l : List α) (a : α), (a :: l).getLast? = orFallback l.getLast? (some a) := by
  intro l
  induction l with
  | nil => intro a; simp [orFallback]
  | cons b t ih =>
    intro a
    rw [List.getLast?_cons_cons, ih b]
    cases ht : t.getLast? <;> simp [orFallback, ih b, ht]

lemma orFallback_assoc {α : Type} (a b c : Option α) :
    orFallback (orFallback a b) c = orFallback a (orFallback b c) := by
  cases a <;> cases b <;> simp [orFallback]

lemma pass1_lookup_last :
    ∀ (items_ : List Item) (m m' : List (Value × Item)),
      (∀ r ∈ items_, (itemFind r "id").isSome) →
      pass1 m items_ = Except.ok m' →
      ∀ k, alookup m' k =
        orFallback ((items_.filter fun r => keyOf r == k).getLast?) (alookup m k) := by
  intro items_
  induction items_ with
  | nil =>
    intro m m' _ h k
    simp only [pass1, Except.ok.injEq] at h
    subst h
    simp [orFallback]
  | cons it rest ih =>
    intro m m' hids h k
    have hit : (itemFind it "id").isSome := hids it (List.mem_cons_self _ _)
    cases hf : itemFind it "id" with
    | none => rw [hf] at hit; cases hit
    | some k0 =>
      rw [pass1, hf] at h
      have hkey : keyOf it = k0 := keyOf_eq_of_find hf
      have hrest : ∀ r ∈ rest, (itemFind r "id").isSome := fun r hr =>
        hids r (List.mem_cons_of_mem _ hr)
      have hrec := ih _ _ hrest h k
      by_cases hk : k0 = k
      · subst hk
        have hpred : (keyOf it == k0) = true := by simp [hkey]
        have hzero : alookup (dictInsert m k0 it) k0 = some it := by
          rw [alookup_dictInsert]; simp
        rw [hrec, hzero,
          show List.filter (fun r => keyOf r == k0) (it :: rest) =
              it :: List.filter (fun r => keyOf r == k0) rest from by
            simp [List.filter_cons, hpred],
          getLast?_cons_or, orFallback_assoc]
        simp [orFallback]
      · have hpred : (keyOf it == k) = false := by simp [hkey, hk]
        have hsame : alookup (dictInsert m k0 it) k = alookup m k := by
          rw [alookup_dictInsert]; simp [hk]
        rw [hrec, hsame,
          show List.filter (fun r => keyOf r == k) (it :: rest) =
              List.filter (fun r => keyOf r == k) rest from by
            simp [List.filter_cons, hpred]]

lemma pass1_all_ids :
    ∀ (items_ : List Item) (m m' : List (Value × Item)),
      pass1 m items_ = Except.ok m' → ∀ r ∈ items_, (itemFind r "id").isSome := by
  intro items_
  induction items_ with
  | nil => intro m m' _ r hr; cases hr
  | cons it rest ih =>
    intro m m' h r hr
    cases hf : itemFind it "id" with
    | none => rw [pass1, hf] at h; cases h
    | some k =>
      rw [pass1, hf] at h
      rcases List.mem_cons.mp hr with heq | hr'
      · subst heq; simp [hf]
      · exact ih _ _ h r hr'

/-- First-seen-position deduplication with an explicit seen set. -/
def dedupGo (seen : List Value) : List Value → List Value
  | [] => []
  | k :: rest => if k ∈ seen then dedupGo seen rest else k :: dedupGo (seen ++ [k]) rest

/-- Deduplicate a list keeping the FIRST occurrence of each element in place
(the iteration-order rule of an insertion-ordered dict). -/
def dedupKeepFirst (l : List Value) : List Value := dedupGo [] l

lemma pass1_keys_order :
    ∀ (items_ : List Item) (m m' : List (Value × Item)),
      (∀ r ∈ items_, (itemFind r "id").isSome) →
      pass1 m items_ = Except.ok m' →
      m'.map Prod.fst = m.map Prod.fst ++ dedupGo (m.map Prod.fst) (items_.map keyOf) := by
  intro items_
  induction items_ with
  | nil =>
    intro m m' _ h
    simp only [pass1, Except.ok.injEq] at h
    simp [← h, dedupGo]
  | cons it rest ih =>
    intro m m' hids h
    have hit : (itemFind it "id").isSome := hids it (List.mem_cons_self _ _)
    cases hf : itemFind it "id" with
    | none => rw [hf] at hit; cases hit
    | some k0 =>
      rw [pass1, hf] at h
      have hkey : keyOf it = k0 := keyOf_eq_of_find hf
      have hrest : ∀ r ∈ rest, (itemFind r "id").isSome := fun r hr =>
        hids r (List.mem_cons_of_mem _ hr)
      have hrec := ih _ _ hrest h
      rw [hrec, dictInsert_keys]
      by_cases hmem : k0 ∈ m.map Prod.fst
      · simp only [if_pos hmem, List.map_cons, hkey, dedupGo, if_pos hmem]
      · simp only [if_neg hmem, List.map_cons, hkey, dedupGo, if_neg hmem]
        simp [List.append_assoc]

lemma mem_dedupGo :
    ∀ (l : List Value) (seen : List Value) (k : Value),
      k ∈ dedupGo seen l ↔ k ∈ l ∧ k ∉ seen := by
  intro l
  induction l with
  | nil => intro seen k; simp [dedupGo]
  | cons a rest ih =>
    intro seen k
    by_cases ha : a ∈ seen
    · rw [dedupGo, if_pos ha, ih]
      constructor
      · rintro ⟨h1, h2⟩; exact ⟨List.mem_cons_of_mem _ h1, h2⟩
      · rintro ⟨h1, h2⟩
        rcases List.mem_cons.mp h1 with rfl | h1'
        · exact absurd ha h2
        · exact ⟨h1', h2⟩
    · rw [dedupGo, if_neg ha]
      by_cases hka : k = a
      · subst hka
        simp [ha]
      · simp only [List.mem_cons, hka, false_or, ih, List.mem_append,
          List.mem_singleton, or_false]
        simp

/- ### The first pass on distinct-id inputs, and store-shape inversion -/

lemma dictInsert_notmem :
    ∀ (m : List (Value × Item)) (k : Value) (v : Item),
      k ∉ m.map Prod.fst → dictInsert m k v = m ++ [(k, v)] := by
  intro m
  induction m with
  | nil => intro k v _; simp [dictInsert]
  | cons e rest ih =>
    intro k v h
    obtain ⟨k', v'⟩ := e
    simp only [List.map_cons, List.mem_cons] at h
    have hk : ¬ k' = k := fun hkk => h (Or.inl hkk.symm)
    simp only [dictInsert, if_neg hk, List.cons_append, List.cons.injEq, true_and]
    exact ih k v fun hmem => h (Or.inr hmem)

lemma pass1_nodup_ids :
    ∀ (items_ : List Item) (acc : List (Value × Item)),
      (∀ r ∈ items_, (itemFind r "id").isSome) →
      (items_.map keyOf).Nodup →
      (∀ k ∈ items_.map keyOf, k ∉ acc.map Prod.fst) →
      pass1 acc items_ = Except.ok (acc ++ items_.map fun r => (keyOf r, r)) := by
  intro items_
  induction items_ with
  | nil => intro acc _ _ _; simp [pass1]
  | cons it rest ih =>
    intro acc hids hnd hdisj
    have hit : (itemFind it "id").isSome := hids it (List.mem_cons_self _ _)
    cases hf : itemFind it "id" with
    | none => rw [hf] at hit; cases hit
    | some k0 =>
      have hkey : keyOf it = k0 := keyOf_eq_of_find hf
      rw [pass1, hf]
      have hmemhd : k0 ∈ (it :: rest).map keyOf := by
        simp [hkey]
      have hnotin : k0 ∉ acc.map Prod.fst := hdisj k0 hmemhd
      show pass1 (dictInsert acc k0 it) rest =
        Except.ok (acc ++ (it :: rest).map fun r => (keyOf r, r))
      rw [dictInsert_notmem acc k0 it hnotin]
      simp only [List.map_cons, List.nodup_cons] at hnd
      have hrest_ids : ∀ r ∈ rest, (itemFind r "id").isSome := fun r hr =>
        hids r (List.mem_cons_of_mem _ hr)
      have hrest_disj : ∀ k ∈ rest.map keyOf, k ∉ (acc ++ [(k0, it)]).map Prod.fst := by
        intro k hk
        simp only [List.map_append, List.mem_append, List.map_cons, List.map_nil,
          List.mem_singleton]
        rintro (hmem | hmem)
        · exact hdisj k (List.mem_cons_of_mem _ hk) hmem
        · subst hmem
          exact hnd.1 (hkey ▸ hk)
      have hrec := ih (acc ++ [(k0, it)]) hrest_ids hnd.2 hrest_disj
      rw [hrec]
      simp [hkey, List.append_assoc]

lemma pass1_nodup_ids_nil (items_ : List Item)
    (hids : ∀ r ∈ items_, (itemFind r "id").isSome)
    (hnd : (items_.map keyOf).Nodup) :
    pass1 [] items_ = Except.ok (items_.map fun r => (keyOf r, r)) := by
  simpa using pass1_nodup_ids items_ [] hids hnd (by simp)

/-- The children table produced by the second pass, starting (as in
`build_tree`) from an empty children list for every key. -/
def childrenOf (m : List (Value × Item)) : List (Value × List Value) :=
  (pass2 m (m.map fun e => (e.1, ([] : List Value))) none m).1

/-- The root slot produced by the second pass. -/
def rootOf (m : List (Value × Item)) : Option Value :=
  (pass2 m (m.map fun e => (e.1, ([] : List Value))) none m).2

lemma mkStore_eq_of_pass1 {items_ : List Item} {m : List (Value × Item)}
    (hp : pass1 [] items_ = Except.ok m) :
    mkStore items_ = Except.ok ⟨m, childrenOf m, rootOf m⟩ := by
  unfold mkStore
  rw [hp]
  rfl

lemma mkStore_ok_shape {items_ : List Item} {s : TreeStore}
    (h : mkStore items_ = Except.ok s) :
    ∃ m, pass1 [] items_ = Except.ok m ∧ s = ⟨m, childrenOf m, rootOf m⟩ := by
  cases hp : pass1 [] items_ with
  | error e =>
    unfold mkStore at h
    rw [hp] at h
    cases h
  | ok m =>
    have h2 := mkStore_eq_of_pass1 hp
    rw [h] at h2
    injection h2 with h1
    exact ⟨m, rfl, h1⟩

/- ### C6, C7, C8: the index on duplicate ids, get_all, get_item -/

/-- C6: when some id occurs more than once (hypothesis `hdup`, not needed by
the proof but scoping the claim), the index maps every id to the LAST record
bearing it, its key sequence is the input id sequence deduplicated keeping
each id's FIRST position, and it has exactly one entry per distinct input id. -/
theorem c6_duplicate_ids (items_ : List Item) (s : TreeStore)
    (hok : mkStore items_ = Except.ok s)
    (hdup : ¬ (items_.map keyOf).Nodup) :
    (∀ k, alookup s.nodes_map k = (items_.filter fun r => keyOf r == k).getLast?) ∧
    s.nodes_map.map Prod.fst = dedupKeepFirst (items_.map keyOf) ∧
    (s.nodes_map.map Prod.fst).Nodup ∧
    (∀ k, k ∈ s.nodes_map.map Prod.fst ↔ k ∈ items_.map keyOf) := by
  obtain ⟨m, hp, hs⟩ := mkStore_ok_shape hok
  have hids := pass1_all_ids items_ [] m hp
  subst hs
  refine ⟨?_, ?_, ?_, ?_⟩
  · intro k
    have hlook := pass1_lookup_last items_ [] m hids hp k
    show alookup m k = _
    rw [hlook]
    cases hl : (items_.filter fun r => keyOf r == k).getLast? <;>
      simp [orFallback, alookup]
  · show m.map Prod.fst = _
    have horder := pass1_keys_order items_ [] m hids hp
    simpa [dedupKeepFirst] using horder
  · exact pass1_keys_nodup items_ [] m (by simp) hp
  · intro k
    show k ∈ m.map Prod.fst ↔ _
    rw [pass1_keys_order items_ [] m hids hp]
    simp [mem_dedupGo]

/-- Input with a duplicated id (2 occurs twice). -/
def dupItems : List Item :=
  [[("id", Value.vInt 1), ("parent", Value.vStr "root")],
   [("id", Value.vInt 2), ("parent", Value.vInt 1), ("type", Value.vStr "a")],
   [("id", Value.vInt 2), ("parent", Value.vInt 1), ("type", Value.vStr "b")]]

def dupStore : TreeStore :=
  match mkStore dupItems with
  | Except.ok s => s
  | Except.error _ => ⟨[], [], none⟩

/-- Witness for C6 on `dupItems`: id 2 maps to the later record, and the key
order keeps first-occurrence positions. -/
theorem c6_witness :
    alookup dupStore.nodes_map (Value.vInt 2) =
      (dupItems.filter fun r => keyOf r == Value.vInt 2).getLast? ∧
    dupStore.nodes_map.map Prod.fst = dedupKeepFirst (dupItems.map keyOf) :=
  ⟨(c6_duplicate_ids dupItems dupStore rfl (by decide)).1 (Value.vInt 2),
   (c6_duplicate_ids dupItems dupStore rfl (by decide)).2.1⟩

/-- C7: on pairwise-distinct ids, `get_all` returns every input record
exactly once, in input order, field-for-field identical (list equality of the
embedded records). -/
theorem c7_get_all_returns_input (items_ : List Item) (s : TreeStore)
    (hok : mkStore items_ = Except.ok s)
    (hnd : (items_.map keyOf).Nodup) :
    get_all s = items_ := by
  obtain ⟨m, hp, hs⟩ := mkStore_ok_shape hok
  have hids := pass1_all_ids items_ [] m hp
  have hm : m = items_.map fun r => (keyOf r, r) := by
    have h2 := pass1_nodup_ids_nil items_ hids hnd
    rw [hp] at h2
    exact Except.ok.inj h2
  subst hs
  show m.map Prod.snd = items_
  rw [hm, List.map_map]
  exact List.map_id items_

/-- Witness for C7 on the reference dataset. -/
theorem c7_witness : get_all s8 = items8 :=
  c7_get_all_returns_input items8 s8 rfl (by decide)

/-- C8: `get_item` returns the record stored for an id present in the index
(the LAST input record with that id, which is the original record supplied at
construction), and the empty mapping for an id never supplied. -/
theorem c8_get_item_exact (items_ : List Item) (s : TreeStore)
    (hok : mkStore items_ = Except.ok s) (id_ : Value) :
    get_item s id_ = ((items_.filter fun r => keyOf r == id_).getLast?).getD [] := by
  obtain ⟨m, hp, hs⟩ := mkStore_ok_shape hok
  have hids := pass1_all_ids items_ [] m hp
  have hlook := pass1_lookup_last items_ [] m hids hp id_
  have halook : alookup s.nodes_map id_ =
      (items_.filter fun r => keyOf r == id_).getLast? := by
    rw [hs]
    show alookup m id_ = _
    rw [hlook]
    cases hl : (items_.filter fun r => keyOf r == id_).getLast? <;>
      simp [orFallback, alookup]
  unfold get_item
  rw [halook]
  cases hl : (items_.filter fun r => keyOf r == id_).getLast? <;> simp

/-- Witness for C8: a present id and an absent id on the reference store. -/
theorem c8_witness :
    get_item s8 (Value.vInt 7) =
      ((items8.filter fun r => keyOf r == Value.vInt 7).getLast?).getD [] ∧
    get_item s8 (Value.vInt 99) =
      ((items8.filter fun r => keyOf r == Value.vInt 99).getLast?).getD [] :=
  ⟨c8_get_item_exact items8 s8 rfl (Value.vInt 7),
   c8_get_item_exact items8 s8 rfl (Value.vInt 99)⟩

/- ### C9: round-trip through get_all -/

lemma pass1_self (m : List (Value × Item))
    (hkc : ∀ e ∈ m, itemFind e.2 "id" = some e.1)
    (hnd : (m.map Prod.fst).Nodup) :
    pass1 [] (m.map Prod.snd) = Except.ok m := by
  have hids : ∀ r ∈ m.map Prod.snd, (itemFind r "id").isSome := by
    intro r hr
    obtain ⟨e, he, rfl⟩ := List.mem_map.mp hr
    rw [hkc e he]
    rfl
  have hkeys : (m.map Prod.snd).map keyOf = m.map Prod.fst := by
    rw [List.map_map]
    exact List.map_congr_left fun e he => keyOf_eq_of_find (hkc e he)
  have hnd2 : ((m.map Prod.snd).map keyOf).Nodup := by rw [hkeys]; exact hnd
  rw [pass1_nodup_ids_nil (m.map Prod.snd) hids hnd2]
  congr 1
  rw [List.map_map]
  conv_rhs => rw [← List.map_id m]
  refine List.map_congr_left fun e he => ?_
  have hk : keyOf e.2 = e.1 := keyOf_eq_of_find (hkc e he)
  simp [Function.comp, hk]

/-- C9: building a second store from `get_all`'s output reproduces the very
same store, so every query (get_all, get_item, get_children,
get_all_parents at any fuel) agrees with the first store's. -/
theorem c9_round_trip (items_ : List Item) (s : TreeStore)
    (hok : mkStore items_ = Except.ok s) :
    mkStore (get_all s) = Except.ok s ∧
    (∀ s', mkStore (get_all s) = Except.ok s' →
      get_all s' = get_all s ∧
      (∀ id_, get_item s' id_ = get_item s id_) ∧
      (∀ id_, get_children s' id_ = get_children s id_) ∧
      (∀ id_ n, get_all_parents n s' id_ = get_all_parents n s id_)) := by
  obtain ⟨m, hp, hs⟩ := mkStore_ok_shape hok
  have hkc : ∀ e ∈ m, itemFind e.2 "id" = some e.1 :=
    pass1_KC items_ [] m (by simp) hp
  have hnd : (m.map Prod.fst).Nodup := pass1_keys_nodup items_ [] m (by simp) hp
  have hself : pass1 [] (m.map Prod.snd) = Except.ok m := pass1_self m hkc hnd
  have hga : get_all s = m.map Prod.snd := by rw [hs]; rfl
  have hmk2 : mkStore (get_all s) = Except.ok ⟨m, childrenOf m, rootOf m⟩ := by
    rw [hga]
    exact mkStore_eq_of_pass1 hself
  rw [← hs] at hmk2
  refine ⟨hmk2, ?_⟩
  intro s' h'
  rw [hmk2] at h'
  injection h' with h1
  subst h1
  exact ⟨rfl, fun _ => rfl, fun _ => rfl, fun _ _ => rfl⟩

/-- Witness for C9 on the reference dataset. -/
theorem c9_witness : mkStore (get_all s8) = Except.ok s8 :=
  (c9_round_trip items8 s8 rfl).1

/- ### C5: get_children and the second-pass children table -/

lemma appendChild_alookup :
    ∀ (ch : List (Value × List Value)) (pk ck k : Value),
      alookup (appendChild ch pk ck) k =
        if k = pk then (alookup ch k).map (fun cs => cs ++ [ck]) else alookup ch k := by
  intro ch
  induction ch with
  | nil =>
    intro pk ck k
    by_cases hk : k = pk <;> simp [appendChild, alookup, hk]
  | cons e rest ih =>
    intro pk ck k
    obtain ⟨k0, cs0⟩ := e
    by_cases h0 : k0 = pk
    · subst h0
      by_cases hk : k0 = k
      · subst hk
        simp [appendChild, alookup]
      · have hk2 : ¬ k = k0 := fun h => hk h.symm
        simp [appendChild, alookup, hk, hk2]
    · by_cases hk : k0 = k
      · subst hk
        have h02 : ¬ k0 = pk := h0
        simp [appendChild, alookup, h02]
      · have hk2 : ¬ k = k0 := fun h => hk h.symm
        simp [appendChild, alookup, h0, hk, hk2, ih]

lemma alookup_map_nil (m : List (Value × Item)) (k : Value) :
    alookup (m.map fun e => (e.1, ([] : List Value))) k =
      if (alookup m k).isSome then some ([] : List Value) else none := by
  induction m with
  | nil => simp [alookup]
  | cons e rest ih =>
    obtain ⟨k0, it0⟩ := e
    by_cases hk : k0 = k
    · subst hk; simp [alookup]
    · simp [alookup, hk, ih]

lemma pass2_children_lookup (m : List (Value × Item)) :
    ∀ (rest : List (Value × Item)) (ch : List (Value × List Value))
      (rt : Option Value) (k : Value),
      alookup (pass2 m ch rt rest).1 k =
        (alookup ch k).map fun cs => cs ++
          (if (alookup m k).isSome ∧ k ≠ Value.vStr "root" then
            (rest.filter fun e => itemGet e.2 "parent" == k).map Prod.fst
          else []) := by
  intro rest
  induction rest with
  | nil =>
    intro ch rt k
    rw [pass2]
    cases alookup ch k <;> simp
  | cons e rest' ih =>
    intro ch rt k
    obtain ⟨k0, it0⟩ := e
    by_cases hroot : itemGet it0 "parent" = Value.vStr "root"
    · have hstep : pass2 m ch rt ((k0, it0) :: rest') = pass2 m ch (some k0) rest' := by
        rw [pass2, if_pos hroot]
      rw [hstep, ih]
      by_cases hC : (alookup m k).isSome ∧ k ≠ Value.vStr "root"
      · have hpred : (itemGet it0 "parent" == k) = false := by
          rw [hroot]
          exact beq_eq_false_iff_ne.mpr fun h => hC.2 h.symm
        simp [List.filter_cons, hpred]
      · simp [if_neg hC]
    · cases hfound : alookup m (itemGet it0 "parent") with
      | some v =>
        have hstep : pass2 m ch rt ((k0, it0) :: rest') =
            pass2 m (appendChild ch (itemGet it0 "parent") k0) rt rest' := by
          rw [pass2, if_neg hroot, hfound]
        rw [hstep, ih, appendChild_alookup]
        by_cases hk : k = itemGet it0 "parent"
        · have hC : (alookup m k).isSome ∧ k ≠ Value.vStr "root" := by
            constructor
            · rw [hk, hfound]; rfl
            · rw [hk]; exact hroot
          have hpred : (itemGet it0 "parent" == k) = true := by
            rw [hk]; simp
          rw [if_pos hk, if_pos hC]
          simp only [List.filter_cons, hpred, if_true]
          cases hl : alookup ch k <;>
            simp [Option.map_map, Function.comp, List.append_assoc, if_pos hC]
        · have hpred : (itemGet it0 "parent" == k) = false :=
            beq_eq_false_iff_ne.mpr fun h => hk h.symm
          rw [if_neg hk]
          by_cases hC : (alookup m k).isSome ∧ k ≠ Value.vStr "root"
          · simp [List.filter_cons, hpred]
          · simp [if_neg hC]
      | none =>
        have hstep : pass2 m ch rt ((k0, it0) :: rest') = pass2 m ch rt rest' := by
          rw [pass2, if_neg hroot, hfound]
        rw [hstep, ih]
        by_cases hC : (alookup m k).isSome ∧ k ≠ Value.vStr "root"
        · have hpred : (itemGet it0 "parent" == k) = false := by
            refine beq_eq_false_iff_ne.mpr fun h => ?_
            rw [h] at hfound
            rw [hfound] at hC
            simp at hC
          simp [List.filter_cons, hpred]
        · simp [if_neg hC]

lemma get_children_none {s : TreeStore} {id_ : Value}
    (h : alookup s.nodes_map id_ = none) : get_children s id_ = [] := by
  unfold get_children
  rw [h]

lemma get_children_some {s : TreeStore} {id_ : Value} {r : Item}
    (h : alookup s.nodes_map id_ = some r) :
    get_children s id_ = (childKeys s id_).map fun c => nodeItem s c := by
  unfold get_children
  rw [h]

lemma mkStore_nodup_shape {items_ : List Item} {s : TreeStore}
    (hok : mkStore items_ = Except.ok s) (hnd : (items_.map keyOf).Nodup) :
    s = ⟨items_.map fun r => (keyOf r, r),
         childrenOf (items_.map fun r => (keyOf r, r)),
         rootOf (items_.map fun r => (keyOf r, r))⟩ := by
  obtain ⟨m, hp, hs⟩ := mkStore_ok_shape hok
  have hids := pass1_all_ids items_ [] m hp
  have hm : m = items_.map fun r => (keyOf r, r) := by
    have h2 := pass1_nodup_ids_nil items_ hids hnd
    rw [hp] at h2
    exact Except.ok.inj h2
  rw [hs, hm]

lemma map_nodeItem_filter (s : TreeStore) (id_ : Value) :
    ∀ (items_ : List Item),
      (∀ r ∈ items_, alookup s.nodes_map (keyOf r) = some r) →
      ((((items_.map fun r => (keyOf r, r)).filter
          fun e => itemGet e.2 "parent" == id_).map Prod.fst).map fun c => nodeItem s c) =
        items_.filter fun r => itemGet r "parent" == id_ := by
  intro items_
  induction items_ with
  | nil => intro _; simp
  | cons r rest ih =>
    intro hlook
    have hr := hlook r (List.mem_cons_self _ _)
    have hrest : ∀ x ∈ rest, alookup s.nodes_map (keyOf x) = some x := fun x hx =>
      hlook x (List.mem_cons_of_mem _ hx)
    cases hp : (itemGet r "parent" == id_) with
    | true =>
      simp only [List.map_cons, List.filter_cons, hp, if_true]
      simp [nodeItem, hr, hp]
      simpa [nodeItem] using ih hrest
    | false =>
      simp [List.filter_cons, hp, ih hrest]

/-- Input with distinct ids where one record's id is the string "root" while
another record names "root" as its parent. -/
def c5Items : List Item :=
  [[("id", Value.vStr "root"), ("parent", Value.vStr "root")],
   [("id", Value.vInt 2), ("parent", Value.vStr "root")]]

def c5Store : TreeStore :=
  match mkStore c5Items with
  | Except.ok s => s
  | Except.error _ => ⟨[], [], none⟩

/-- C5 counterexample: the claim says that for every store built from
distinct-id records and EVERY id, get_children(id) returns exactly the input
records whose parent equals id.  On `c5Items` (ids "root" and 2, distinct,
construction succeeds) both records have parent == "root", yet
get_children("root") is empty: records whose parent is the sentinel "root"
are claimed by the root slot of `build_tree` and never appended to the
children of the node whose id is the string "root". -/
theorem c5_counterexample :
    constructStore 1 c5Items = some (Except.ok c5Store) ∧
    (c5Items.map keyOf).Nodup ∧
    get_children c5Store (Value.vStr "root") ≠
      c5Items.filter fun r => itemGet r "parent" == Value.vStr "root" :=
  ⟨rfl, by decide, by decide⟩

/-- C5 amended: for a store built from records with pairwise-distinct ids,
get_children(id) returns exactly those input records whose `parent` field
value equals id AND is not the sentinel "root" (equivalently: for id not the
sentinel, exactly the records whose parent equals id, in input order; for
id = "root" or id absent from the index, the empty sequence), and never any
deeper descendant. -/
theorem c5_amended_get_children (items_ : List Item) (s : TreeStore)
    (hok : mkStore items_ = Except.ok s)
    (hnd : (items_.map keyOf).Nodup) (id_ : Value) :
    get_children s id_ =
      if id_ ∈ items_.map keyOf ∧ id_ ≠ Value.vStr "root" then
        items_.filter fun r => itemGet r "parent" == id_
      else [] := by
  have hs := mkStore_nodup_shape hok hnd
  subst hs
  have hmkeys : (items_.map fun r => (keyOf r, r)).map Prod.fst = items_.map keyOf := by
    rw [List.map_map]
    rfl
  cases hl : alookup (items_.map fun r => (keyOf r, r)) id_ with
  | none =>
    have hmem : id_ ∉ items_.map keyOf := by
      rw [← hmkeys]
      exact (alookup_eq_none _ id_).mp hl
    rw [get_children_none hl]
    simp [hmem]
  | some r0 =>
    have hC : (alookup (items_.map fun r => (keyOf r, r)) id_).isSome := by
      rw [hl]; rfl
    have hmem : id_ ∈ items_.map keyOf := by
      rw [← hmkeys]
      by_contra hmm
      have h0 := (alookup_eq_none _ id_).mpr hmm
      rw [h0] at hl
      cases hl
    rw [get_children_some hl]
    have hck : childKeys ⟨items_.map fun r => (keyOf r, r),
        childrenOf (items_.map fun r => (keyOf r, r)),
        rootOf (items_.map fun r => (keyOf r, r))⟩ id_ =
        if id_ ≠ Value.vStr "root" then
          ((items_.map fun r => (keyOf r, r)).filter
            fun e => itemGet e.2 "parent" == id_).map Prod.fst
        else [] := by
      show (alookup (childrenOf (items_.map fun r => (keyOf r, r))) id_).getD [] = _
      unfold childrenOf
      rw [pass2_children_lookup, alookup_map_nil, if_pos hC]
      by_cases hroot : id_ = Value.vStr "root"
      · simp [hroot]
      · simp [hroot, hC]
    rw [hck]
    by_cases hroot : id_ = Value.vStr "root"
    · rw [if_neg (fun h : id_ ≠ Value.vStr "root" => h hroot)]
      rw [if_neg (fun h : _ ∧ id_ ≠ Value.vStr "root" => h.2 hroot)]
      simp
    · rw [if_pos hroot, if_pos ⟨hmem, hroot⟩]
      refine map_nodeItem_filter _ id_ items_ fun r hr => ?_
      apply mem_alookup
      · show ((items_.map fun x => (keyOf x, x)).map Prod.fst).Nodup
        rw [hmkeys]
        exact hnd
      · exact List.mem_map_of_mem _ hr

/-- Witness for C5 (amended) on the reference dataset at id 2, whose
children are the records 4, 5 and 6. -/
theorem c5_witness :
    get_children s8 (Value.vInt 2) =
      if (Value.vInt 2) ∈ items8.map keyOf ∧ (Value.vInt 2) ≠ Value.vStr "root" then
        items8.filter fun r => itemGet r "parent" == Value.vInt 2
      else [] :=
  c5_amended_get_children items8 s8 rfl (by decide) (Value.vInt 2)

/- ### C10: when get_all_parents raises KeyError -/

/-- Written from the claim's wording (refinement target): within `n` steps,
the ancestor walk reaches a record that has no `parent` field. -/
def reachesParentless (s : TreeStore) : Nat → Option Item → Bool
  | 0, _ => false
  | _ + 1, none => false
  | n + 1, some it =>
    match itemFind it "parent" with
    | none => true
    | some p => reachesParentless s n (alookup s.nodes_map p)

lemma gapGo_error_iff (s : TreeStore) :
    ∀ (n : Nat) (cur : Option Item),
      (∀ e, gapGo s n cur = some (Except.error e) → e = Err.keyError) ∧
      (gapGo s n cur = some (Except.error Err.keyError) ↔
        reachesParentless s n cur = true) := by
  intro n
  induction n with
  | zero =>
    intro cur
    cases cur with
    | none => simp [gapGo, reachesParentless]
    | some it => simp [gapGo, reachesParentless]
  | succ n ih =>
    intro cur
    cases cur with
    | none => simp [gapGo, reachesParentless]
    | some it =>
      cases hp : itemFind it "parent" with
      | none => simp [gapGo, reachesParentless, hp]
      | some p =>
        have ihp := ih (alookup s.nodes_map p)
        refine ⟨?_, ?_, ?_⟩
        · intro e h
          simp only [gapGo, hp] at h
          cases hrec : gapGo s n (alookup s.nodes_map p) with
          | none =>
            rw [hrec] at h
            exact Option.noConfusion h
          | some r =>
            cases r with
            | error e2 =>
              rw [hrec] at h
              have h2 : some (Except.error e2) = some (Except.error e) := h
              have he : e2 = e := by
                injection h2 with h3
                injection h3
              exact he ▸ ihp.1 e2 hrec
            | ok l =>
              rw [hrec] at h
              have h2 : some (Except.ok (it :: l)) = some (Except.error e) := h
              simp at h2
        · intro h
          simp only [gapGo, hp] at h
          cases hrec : gapGo s n (alookup s.nodes_map p) with
          | none =>
            rw [hrec] at h
            exact Option.noConfusion h
          | some r =>
            cases r with
            | error e2 =>
              rw [hrec] at h
              have h2 : some (Except.error e2) = some (Except.error Err.keyError) := h
              have he : e2 = Err.keyError := by
                injection h2 with h3
                injection h3
              rw [he] at hrec
              have hr := (ihp.2).mp hrec
              simp [reachesParentless, hp, hr]
            | ok l =>
              rw [hrec] at h
              have h2 : some (Except.ok (it :: l)) = some (Except.error Err.keyError) := h
              simp at h2
        · intro h
          simp only [reachesParentless, hp] at h
          have hrec := (ihp.2).mpr h
          simp only [gapGo, hp, hrec]

/-- C10 amended: `get_all_parents` raises (and what it raises is always a
`KeyError`) if and only if the ancestor walk visits a record lacking the
`parent` field; when no such record is visited the walk never raises — it
returns normally when it terminates, and on a cyclic parent chain it never
finishes (see the counterexample). -/
theorem c10_amended_keyError_iff (s : TreeStore) (id_ : Value) :
    ((∃ n e, get_all_parents n s id_ = some (Except.error e)) ↔
      (∃ n, reachesParentless s n (alookup s.nodes_map id_) = true)) ∧
    (∀ n e, get_all_parents n s id_ = some (Except.error e) → e = Err.keyError) := by
  constructor
  · constructor
    · rintro ⟨n, e, h⟩
      have he := (gapGo_error_iff s n (alookup s.nodes_map id_)).1 e h
      subst he
      exact ⟨n, ((gapGo_error_iff s n (alookup s.nodes_map id_)).2).mp h⟩
    · rintro ⟨n, h⟩
      exact ⟨n, Err.keyError,
        ((gapGo_error_iff s n (alookup s.nodes_map id_)).2).mpr h⟩
  · intro n e h
    exact (gapGo_error_iff s n (alookup s.nodes_map id_)).1 e h

/-- The walk from `id_` never meets a record lacking `parent`, whatever the
fuel. -/
def neverVisitsParentless (s : TreeStore) (id_ : Value) : Prop :=
  ∀ n, reachesParentless s n (alookup s.nodes_map id_) = false

lemma cyc_reaches_false (n : Nat) :
    reachesParentless cycStore n (some cycItem1) = false ∧
    reachesParentless cycStore n (some cycItem2) = false := by
  induction n with
  | zero => exact ⟨rfl, rfl⟩
  | succ n ih =>
    refine ⟨?_, ?_⟩
    · show reachesParentless cycStore (n + 1) (some cycItem1) = false
      have h1 : itemFind cycItem1 "parent" = some (Value.vInt 2) := rfl
      simp only [reachesParentless, h1, cyc_lookup2, ih.2]
    · show reachesParentless cycStore (n + 1) (some cycItem2) = false
      have h2 : itemFind cycItem2 "parent" = some (Value.vInt 1) := rfl
      simp only [reachesParentless, h2, cyc_lookup1, ih.1]

/-- C10 counterexample: on the cyclic store, the walk from id 1 never visits
a record lacking `parent` (second conjunct), so by the claim the call should
return normally; but at every fuel it is still looping (first conjunct), so
it neither raises nor returns. -/
theorem c10_counterexample :
    gapNeverFinishes cycStore (Value.vInt 1) ∧
    neverVisitsParentless cycStore (Value.vInt 1) := by
  constructor
  · intro n
    show gapGo cycStore n (alookup cycStore.nodes_map (Value.vInt 1)) = none
    rw [cyc_lookup1]
    exact (cyc_gapGo_none n).1
  · intro n
    show reachesParentless cycStore n (alookup cycStore.nodes_map (Value.vInt 1)) = false
    rw [cyc_lookup1]
    exact (cyc_reaches_false n).1

/-- Witness for C10 (amended) on the store `c3Store`, whose record 2 lacks a
`parent` field: the walk from id 2 raises, in both directions of the iff. -/
theorem c10_witness :
    (∃ n, reachesParentless c3Store n
      (alookup c3Store.nodes_map (Value.vInt 2)) = true) ∧
    (∃ n e, get_all_parents n c3Store (Value.vInt 2) = some (Except.error e)) :=
  ⟨(c10_amended_keyError_iff c3Store (Value.vInt 2)).1.mp ⟨1, Err.keyError, rfl⟩,
   (c10_amended_keyError_iff c3Store (Value.vInt 2)).1.mpr ⟨1, rfl⟩⟩

/-- Witness for C3 (amended): a record that has a `parent` but no `id` makes
construction raise `KeyError`. -/
theorem c3_witness :
    constructStore 3 [[("parent", Value.vStr "root")]] =
      some (Except.error Err.keyError) :=
  (c3_amended_raise_iff [[("parent", Value.vStr "root")]] 3).mpr
    ⟨[("parent", Value.vStr "root")], List.mem_singleton.mpr rfl, rfl⟩
